import Mathlib

/-!
Shallow embedding of the filepizza-client transfer protocol
(TeXlyre/filepizza-client).

Sender side: the `FilePizzaUploader` class (src/core/types.ts, duplicated in
the unnamed uploader source file): per-peer `ConnectionContext`, the message
handlers `handleRequestInfo`, `handleUsePassword`, `handleStart`,
`handlePause`, `handleResume`, `handleDone`, the chunk loop `sendFileChunks`,
`setFiles` and `getProgressInfo`.

Receiver side: the `FilePizzaDownloader` class (src/filepizza-downloader.ts):
`handleChunk`, `storeCompletedFile`, `requestNextFile` and `getProgress`.

JavaScript numbers are modelled as `Int` (all values reached here are
integral) and progress ratios as `Option Rat`, where `none` stands for the
non-finite result of a JavaScript division whose denominator is zero (at
every such call site the numerator is zero as well, so the JS value is NaN).
File bytes are `List Nat`; `Blob.slice` is modelled by `blobSlice` with the
negative-index and clamping semantics of the Blob specification.
The unbounded `sendNextChunk` / `setTimeout` loop is modelled with explicit
fuel; `chunkFuel` computes a bound that is proved sufficient below.
-/

/-- Connection status enum from src/core/types.ts. -/
inductive ConnectionStatus where
  | Pending
  | Ready
  | Paused
  | Uploading
  | Downloading
  | Done
  | Authenticating
  | InvalidPassword
  | Closed
  | Error
deriving DecidableEq, Repr

/-- FileInfo record from src/core/types.ts: name, size in bytes, media type. -/
structure FileInfo where
  fileName : String
  size : Nat
  type : String
deriving DecidableEq, Repr

/-- A file held by the uploader: a browser File object, reduced to the fields
the protocol reads (name, media type, raw bytes; `size` is the byte count). -/
structure SrcFile where
  name : String
  type : String
  content : List Nat
deriving DecidableEq, Repr

def SrcFile.size (f : SrcFile) : Nat := f.content.length

/-- The tagged messages exchanged on the data connection (MessageType enum
plus the payload fields each handler reads).  The browser metadata carried by
RequestInfo is not read by any behaviour modelled here and is omitted. -/
inductive Message where
  | RequestInfo
  | UsePassword (password : String)
  | PasswordRequired (errorMessage : Option String)
  | Info (files : List FileInfo)
  | Start (fileName : String) (offset : Int)
  | Resume (fileName : String) (offset : Int)
  | Pause
  | Chunk (fileName : String) (offset : Int) (bytes : List Nat) (final : Bool)
  | Done
  | Error (error : String)
  | Report
deriving DecidableEq, Repr

/-- Per-peer connection context of the uploader (interface ConnectionContext
in src/core/types.ts).  `connOpen` models `dataConnection.open`.
`currentFileProgress` is `none` when the JS value is non-finite (NaN). -/
structure ConnectionContext where
  status : ConnectionStatus
  connOpen : Bool
  fileIndex : Int
  filesInfo : List FileInfo
  totalFiles : Int
  bytesTransferred : Int
  totalBytes : Int
  currentFileProgress : Option Rat
  uploadingFileName : Option String
  uploadingOffset : Option Int
deriving DecidableEq, Repr

/-- The uploader state read by the per-peer handlers: the current file offer
and the configured password (`none` models the absent `password` field). -/
structure Uploader where
  files : List SrcFile
  password : Option String
deriving DecidableEq, Repr

/-- JavaScript truthiness of the optional `password` string: `undefined` and
the empty string are falsy. -/
def isTruthy : Option String → Bool
  | none => false
  | some s => s != ""

/-- JavaScript division producing `none` for a zero denominator (the JS
result is then non-finite; at all call sites in this code the numerator is
zero too, so the JS value is NaN). -/
def jsDiv (a b : Int) : Option Rat :=
  if b = 0 then none else some ((a : Rat) / (b : Rat))

/-- Clamp one index argument of `Blob.slice`: negative indices count from the
end, then the result is clamped into `[0, size]`. -/
def blobClamp (size : Nat) (i : Int) : Nat :=
  if i < 0 then ((size : Int) + i).toNat else min i.toNat size

/-- `Blob.slice(start, endPos)` per the File API: clamp both indices, then
take the (possibly empty) span between them. -/
def blobSlice (content : List Nat) (start endPos : Int) : List Nat :=
  let s := blobClamp content.length start
  let e := blobClamp content.length endPos
  (content.drop s).take (e - s)

/-- `CHUNK_SIZE = 256 * 1024` from `sendFileChunks`. -/
def CHUNK_SIZE : Int := 256 * 1024

/-- `Math.min(file.size, offset + CHUNK_SIZE)` from `sendFileChunks`. -/
def chunkEnd (file : SrcFile) (offset : Int) : Int :=
  min (file.size : Int) (offset + CHUNK_SIZE)

/-- `final = end >= file.size` from `sendFileChunks`. -/
def chunkFinal (file : SrcFile) (offset : Int) : Bool :=
  decide ((file.size : Int) ≤ chunkEnd file offset)

/-- The Chunk message sent by one iteration of `sendNextChunk`. -/
def chunkMsg (file : SrcFile) (offset : Int) : Message :=
  Message.Chunk file.name offset
    (blobSlice file.content offset (chunkEnd file offset))
    (chunkFinal file offset)

/-- The connection context at the point where `sendNextChunk` emits its
progress event: offset advanced to `end`, `currentFileProgress = end / size`
(NaN when the file size is zero), `bytesTransferred += end - offset`. -/
def chunkProgressCtx (file : SrcFile) (ctx : ConnectionContext) (offset : Int) :
    ConnectionContext :=
  { ctx with
    uploadingOffset := some (chunkEnd file offset)
    currentFileProgress := jsDiv (chunkEnd file offset) (file.size : Int)
    bytesTransferred := ctx.bytesTransferred + (chunkEnd file offset - offset) }

/-- The final-chunk bookkeeping of `sendNextChunk`: advance to the next file
and go Ready, or finish all files and go Done. -/
def finalAdvance (ctx : ConnectionContext) : ConnectionContext :=
  if ctx.fileIndex < ctx.totalFiles - 1 then
    { ctx with fileIndex := ctx.fileIndex + 1
               currentFileProgress := some 0
               status := ConnectionStatus.Ready }
  else
    { ctx with fileIndex := ctx.totalFiles
               currentFileProgress := some 1
               status := ConnectionStatus.Done }

/-- One iteration of `sendNextChunk` after the status check: returns the
updated context, the emitted Chunk, and the next offset (`none` when the
chunk was final and the loop ends). -/
def sendChunkStep (file : SrcFile) (ctx : ConnectionContext) (offset : Int) :
    ConnectionContext × Message × Option Int :=
  let ctx1 := chunkProgressCtx file ctx offset
  if chunkFinal file offset then (finalAdvance ctx1, chunkMsg file offset, none)
  else (ctx1, chunkMsg file offset, some (chunkEnd file offset))

/-- Between two chunk sends the loop yields to the event loop
(`setTimeout(sendNextChunk, 0)`); a message handler that runs there may
rewrite the context status.  `some s` sets the status to `s`, `none` leaves
the context alone. -/
def applyInterference : List (Option ConnectionStatus) → ConnectionContext →
    ConnectionContext
  | some s :: _, ctx => { ctx with status := s }
  | _, ctx => ctx

/-- The `sendFileChunks` loop: before every chunk it re-checks
`conn.open && status == Uploading` and stops silently otherwise.  `fuel`
bounds the number of iterations (the source loop is unbounded; `chunkFuel`
below always suffices), `interf` is the schedule of status writes performed
by handlers at the yield points between chunks. -/
def sendFileChunksI (file : SrcFile) :
    Nat → List (Option ConnectionStatus) → ConnectionContext → Int →
    ConnectionContext × List Message
  | 0, _, ctx, _ => (ctx, [])
  | fuel + 1, interf, ctx, offset =>
    if ctx.connOpen = false ∨ ctx.status ≠ ConnectionStatus.Uploading then
      (ctx, [])
    else
      match sendChunkStep file ctx offset with
      | (ctx1, msg, none) => (ctx1, [msg])
      | (ctx1, msg, some nextOff) =>
        let r := sendFileChunksI file fuel interf.tail
          (applyInterference interf ctx1) nextOff
        (r.1, msg :: r.2)

/-- Fuel that always suffices for `sendFileChunksI` starting at `offset`. -/
def chunkFuel (file : SrcFile) (offset : Int) : Nat :=
  ((file.size : Int) - offset).toNat + 1

/-- `this.files.find(file => file.name === fileName)`. -/
def findFile (files : List SrcFile) (fileName : String) : Option SrcFile :=
  files.find? (fun f => f.name == fileName)

/-- `getFileInfo()`: the FileInfo list announced to peers. -/
def getFileInfo (files : List SrcFile) : List FileInfo :=
  files.map (fun f => { fileName := f.name, size := f.size, type := f.type })

/-- `getTotalBytes()`: sum of the sizes of the offered files. -/
def getTotalBytes (files : List SrcFile) : Int :=
  ((files.map SrcFile.size).sum : Nat)

/-- The context created by `handleConnection` for a new peer. -/
def initialContext (u : Uploader) : ConnectionContext :=
  { status := ConnectionStatus.Pending
    connOpen := true
    fileIndex := 0
    filesInfo := getFileInfo u.files
    totalFiles := (u.files.length : Int)
    bytesTransferred := 0
    totalBytes := getTotalBytes u.files
    currentFileProgress := some 0
    uploadingFileName := none
    uploadingOffset := none }

/-- `handleRequestInfo`: password configured (truthy) sends PasswordRequired
and moves to Authenticating, otherwise sends the stored file info and moves
to Ready. -/
def handleRequestInfo (u : Uploader) (ctx : ConnectionContext) :
    ConnectionContext × List Message :=
  if isTruthy u.password then
    ({ ctx with status := ConnectionStatus.Authenticating },
      [Message.PasswordRequired none])
  else
    ({ ctx with status := ConnectionStatus.Ready },
      [Message.Info ctx.filesInfo])

/-- `handleUsePassword`: exact string match sends Info and moves to Ready,
otherwise sends PasswordRequired with an error and moves to InvalidPassword. -/
def handleUsePassword (u : Uploader) (ctx : ConnectionContext) (pw : String) :
    ConnectionContext × List Message :=
  if u.password = some pw then
    ({ ctx with status := ConnectionStatus.Ready },
      [Message.Info ctx.filesInfo])
  else
    ({ ctx with status := ConnectionStatus.InvalidPassword },
      [Message.PasswordRequired (some "Incorrect password")])

/-- The three context writes `handleStart` / `handleResume` perform before
launching the chunk loop. -/
def startCtx (ctx : ConnectionContext) (fileName : String) (offset : Int) :
    ConnectionContext :=
  { ctx with status := ConnectionStatus.Uploading
             uploadingFileName := some fileName
             uploadingOffset := some offset }

/-- `handleStart`: unknown file sends one Error and changes nothing; a known
file moves to Uploading, records name and offset, and runs the chunk loop. -/
def handleStart (u : Uploader) (ctx : ConnectionContext)
    (fileName : String) (offset : Int) : ConnectionContext × List Message :=
  match findFile u.files fileName with
  | none => (ctx, [Message.Error ("File not found: " ++ fileName)])
  | some file =>
    sendFileChunksI file (chunkFuel file offset) []
      (startCtx ctx fileName offset) offset

/-- `handleResume`: the source body is identical to `handleStart` — in
particular the receiver-supplied offset is used as-is, with no clamping. -/
def handleResume (u : Uploader) (ctx : ConnectionContext)
    (fileName : String) (offset : Int) : ConnectionContext × List Message :=
  match findFile u.files fileName with
  | none => (ctx, [Message.Error ("File not found: " ++ fileName)])
  | some file =>
    sendFileChunksI file (chunkFuel file offset) []
      (startCtx ctx fileName offset) offset

/-- `handlePause`: set Paused, send nothing. -/
def handlePause (ctx : ConnectionContext) : ConnectionContext × List Message :=
  ({ ctx with status := ConnectionStatus.Paused }, [])

/-- `handleDone`: set Done and close the connection. -/
def handleDone (ctx : ConnectionContext) : ConnectionContext × List Message :=
  ({ ctx with status := ConnectionStatus.Done, connOpen := false }, [])

/-- `handleData`: the message switch of the uploader; tags without a case
fall through and do nothing. -/
def handleData (u : Uploader) (ctx : ConnectionContext) :
    Message → ConnectionContext × List Message
  | Message.RequestInfo => handleRequestInfo u ctx
  | Message.UsePassword pw => handleUsePassword u ctx pw
  | Message.Start fileName offset => handleStart u ctx fileName offset
  | Message.Pause => handlePause ctx
  | Message.Resume fileName offset => handleResume u ctx fileName offset
  | Message.Done => handleDone ctx
  | _ => (ctx, [])

/-- Process a sequence of inbound messages on one connection, collecting all
messages the uploader sends back. -/
def runMessages (u : Uploader) (ctx : ConnectionContext) :
    List Message → ConnectionContext × List Message
  | [] => (ctx, [])
  | m :: ms =>
    let r1 := handleData u ctx m
    let r2 := runMessages u r1.1 ms
    (r2.1, r1.2 ++ r2.2)

/-- Sender progress record (`getProgressInfo`).  `overallProgress` is `none`
when the JS division is by zero. -/
structure UProgressInfo where
  fileIndex : Int
  fileName : String
  totalFiles : Int
  currentFileProgress : Option Rat
  overallProgress : Option Rat
  bytesTransferred : Int
  totalBytes : Int
deriving DecidableEq, Repr

/-- `getProgressInfo`: note the unguarded division
`bytesTransferred / totalBytes`. -/
def getProgressInfo (ctx : ConnectionContext) : UProgressInfo :=
  { fileIndex := ctx.fileIndex
    fileName := ctx.uploadingFileName.getD ""
    totalFiles := ctx.totalFiles
    currentFileProgress := ctx.currentFileProgress
    overallProgress := jsDiv ctx.bytesTransferred ctx.totalBytes
    bytesTransferred := ctx.bytesTransferred
    totalBytes := ctx.totalBytes }

/-- The uploader session state touched by `setFiles`: the offer plus all live
per-peer contexts, keyed by peer id. -/
structure UploaderSession where
  files : List SrcFile
  password : Option String
  connections : List (String × ConnectionContext)
deriving DecidableEq, Repr

/-- `setFiles`: replace the offer wholesale; if the new list is non-empty,
send Info with the new file list to every connection whose status is Ready. -/
def setFiles (s : UploaderSession) (newFiles : List SrcFile) :
    UploaderSession × List (String × Message) :=
  let s1 := { s with files := newFiles }
  if newFiles.length > 0 then
    (s1, s.connections.filterMap (fun pc =>
      if pc.2.status = ConnectionStatus.Ready then
        some (pc.1, Message.Info (getFileInfo newFiles))
      else none))
  else (s1, [])

/-- One per-file byte sink of the downloader: the ReadableStream controller
reduced to its accumulated bytes and whether `close()` has been called. -/
structure StreamState where
  buffer : List Nat
  closed : Bool
deriving DecidableEq, Repr

/-- A downloaded file as retained in `completedFiles` (interface
CompletedFile: the FileInfo fields plus the assembled data). -/
structure CompletedFile where
  fileName : String
  size : Nat
  type : String
  data : List Nat
deriving DecidableEq, Repr

/-- Receiver progress record (`getProgress`); both divisions are guarded by
`|| 1` in the source, so they are total here. -/
structure DProgressInfo where
  fileIndex : Nat
  fileName : String
  totalFiles : Nat
  currentFileProgress : Rat
  overallProgress : Rat
  bytesTransferred : Nat
  totalBytes : Nat
deriving DecidableEq, Repr

/-- The FilePizzaDownloader state touched by the download state machine. -/
structure DownloaderState where
  filesInfo : List FileInfo
  currentFileIndex : Nat
  currentFileBytesReceived : Nat
  totalBytesReceived : Nat
  totalBytes : Nat
  status : ConnectionStatus
  fileStreams : List (String × StreamState)
  completedFiles : List CompletedFile
  isPasswordRequired : Bool
  isPasswordInvalid : Bool
deriving DecidableEq, Repr

/-- Everything the downloader emits during one handler run: messages sent to
the uploader and events surfaced to the application. -/
inductive DEvent where
  | sent (m : Message)
  | progressEvent (p : DProgressInfo)
  | fileCompleteEvent (cf : CompletedFile)
  | completeEvent (files : List CompletedFile)
  | errorEvent (msg : String)
deriving DecidableEq, Repr

/-- `this.fileStreams.get(fileName)`. -/
def lookupStream (l : List (String × StreamState)) (n : String) :
    Option StreamState :=
  (l.find? (fun p => p.1 == n)).map Prod.snd

/-- Overwrite the stream stored under a name (Map.set on an existing key). -/
def updateStream (l : List (String × StreamState)) (n : String)
    (st : StreamState) : List (String × StreamState) :=
  l.map (fun p => if p.1 == n then (p.1, st) else p)

/-- JavaScript `x || dflt` on an optional number: `undefined` and `0` are
falsy. -/
def jsOrNat (x : Option Nat) (dflt : Nat) : Nat :=
  match x with
  | none => dflt
  | some n => if n = 0 then dflt else n

/-- `getProgress()` of the downloader: per-file progress divides by
`(filesInfo[i]?.size || 1)` and overall progress by `(totalBytes || 1)`. -/
def getProgress (d : DownloaderState) : DProgressInfo :=
  { fileIndex := d.currentFileIndex
    fileName := ((d.filesInfo.get? d.currentFileIndex).map
      (fun fi => fi.fileName)).getD ""
    totalFiles := d.filesInfo.length
    currentFileProgress := (d.currentFileBytesReceived : Rat) /
      ((jsOrNat ((d.filesInfo.get? d.currentFileIndex).map
        (fun fi => fi.size)) 1 : Nat) : Rat)
    overallProgress := (d.totalBytesReceived : Rat) /
      ((jsOrNat (some d.totalBytes) 1 : Nat) : Rat)
    bytesTransferred := d.totalBytesReceived
    totalBytes := d.totalBytes }

/-- `storeCompletedFile`: look the stream and the FileInfo up again by name;
if both exist, append one CompletedFile built from the accumulated stream
bytes and emit fileComplete, otherwise log and do nothing. -/
def storeCompletedFile (d : DownloaderState) (fileName : String) :
    DownloaderState × List DEvent :=
  match lookupStream d.fileStreams fileName,
        d.filesInfo.find? (fun i => i.fileName == fileName) with
  | some st, some fi =>
    let cf : CompletedFile :=
      { fileName := fi.fileName, size := fi.size, type := fi.type
        data := st.buffer }
    ({ d with completedFiles := d.completedFiles ++ [cf] },
      [DEvent.fileCompleteEvent cf])
  | _, _ => (d, [])

/-- `requestNextFile`: send `Start{name, 0}` for the file at the current
index, or nothing when the index is past the end. -/
def requestNextFile (d : DownloaderState) : List DEvent :=
  match d.filesInfo.get? d.currentFileIndex with
  | none => []
  | some fi => [DEvent.sent (Message.Start fi.fileName 0)]

/-- `handleChunk`: find the stream for the named file (missing stream: log
and drop); add the byte length to both counters; enqueue the bytes (an
enqueue on an already-closed controller throws, which the handleData catch
turns into an error event, with the counters already incremented); emit a
progress event; on a final chunk close the stream, store the completed file,
advance to the next file index, and either request the next file or go Done
and emit the complete event. -/
def handleChunk (d : DownloaderState) (fileName : String) (bytes : List Nat)
    (final : Bool) : DownloaderState × List DEvent :=
  match lookupStream d.fileStreams fileName with
  | none => (d, [])
  | some st =>
    let d1 := { d with
      currentFileBytesReceived := d.currentFileBytesReceived + bytes.length
      totalBytesReceived := d.totalBytesReceived + bytes.length }
    if st.closed then
      (d1, [DEvent.errorEvent "enqueue on closed stream"])
    else
      let st1 : StreamState := { st with buffer := st.buffer ++ bytes }
      let d2 := { d1 with fileStreams := updateStream d1.fileStreams fileName st1 }
      let evProgress := DEvent.progressEvent (getProgress d2)
      if final then
        let st2 : StreamState := { st1 with closed := true }
        let d3 := { d2 with fileStreams := updateStream d2.fileStreams fileName st2 }
        let r4 := storeCompletedFile d3 fileName
        let d5 := { r4.1 with
          currentFileIndex := r4.1.currentFileIndex + 1
          currentFileBytesReceived := 0 }
        if d5.currentFileIndex < d5.filesInfo.length then
          (d5, evProgress :: r4.2 ++ requestNextFile d5)
        else
          ({ d5 with status := ConnectionStatus.Done },
            evProgress :: r4.2 ++ [DEvent.completeEvent d5.completedFiles])
      else (d2, [evProgress])

/-- Bytes payload of a Chunk message (empty for any other tag). -/
def chunkBytes : Message → List Nat
  | Message.Chunk _ _ b _ => b
  | _ => []

/-- Offset field of a Chunk message (zero for any other tag). -/
def chunkOffset : Message → Int
  | Message.Chunk _ o _ _ => o
  | _ => 0

/-- A one-file offer used as concrete input: one 1-byte file. -/
def uReplay : Uploader :=
  { files := [{ name := "a", type := "", content := [7] }], password := none }

/-- A password-protected two-file offer used as concrete input. -/
def uAuth : Uploader :=
  { files := [{ name := "a", type := "", content := [7] },
              { name := "b", type := "", content := [8] }]
    password := some "pw" }

/-- A one-file offer whose file holds ten known bytes. -/
def uTen : Uploader :=
  { files := [{ name := "f", type := ""
                content := [10, 20, 30, 40, 50, 60, 70, 80, 90, 100] }]
    password := none }

/-- Downloader state whose current file has declared size zero. -/
def dZero : DownloaderState :=
  { filesInfo := [{ fileName := "a", size := 0, type := "" }]
    currentFileIndex := 0
    currentFileBytesReceived := 0
    totalBytesReceived := 0
    totalBytes := 0
    status := ConnectionStatus.Downloading
    fileStreams := [("a", { buffer := [], closed := false })]
    completedFiles := []
    isPasswordRequired := false
    isPasswordInvalid := false }

/-- Downloader state halfway through a 2-byte file. -/
def dHalf : DownloaderState :=
  { filesInfo := [{ fileName := "a", size := 2, type := "" }]
    currentFileIndex := 0
    currentFileBytesReceived := 1
    totalBytesReceived := 1
    totalBytes := 2
    status := ConnectionStatus.Downloading
    fileStreams := [("a", { buffer := [5], closed := false })]
    completedFiles := []
    isPasswordRequired := false
    isPasswordInvalid := false }

/-- Downloader state about to receive the final chunk of the first of two
files. -/
def dTwo : DownloaderState :=
  { filesInfo := [{ fileName := "a", size := 2, type := "" },
                  { fileName := "b", size := 1, type := "" }]
    currentFileIndex := 0
    currentFileBytesReceived := 1
    totalBytesReceived := 1
    totalBytes := 3
    status := ConnectionStatus.Downloading
    fileStreams := [("a", { buffer := [5], closed := false }),
                    ("b", { buffer := [], closed := false })]
    completedFiles := []
    isPasswordRequired := false
    isPasswordInvalid := false }

/-- A three-byte file used as concrete chunk-loop input. -/
def fA3 : SrcFile := { name := "a", type := "", content := [1, 2, 3] }

/-- An open Uploading context serving `fA3`. -/
def ctxUp : ConnectionContext :=
  { status := ConnectionStatus.Uploading
    connOpen := true
    fileIndex := 0
    filesInfo := [{ fileName := "a", size := 3, type := "" }]
    totalFiles := 1
    bytesTransferred := 0
    totalBytes := 3
    currentFileProgress := some 0
    uploadingFileName := some "a"
    uploadingOffset := some 0 }

/-- Session with one connected peer in the Ready state. -/
def sReady : UploaderSession :=
  { files := [{ name := "a", type := "", content := [7] }]
    password := none
    connections := [("peer1", { initialContext uReplay with
      status := ConnectionStatus.Ready })] }

lemma chunkFinal_true_iff (file : SrcFile) (o : Int) :
    chunkFinal file o = true ↔ (file.size : Int) ≤ o + CHUNK_SIZE := by
  unfold chunkFinal chunkEnd
  simp [le_min_iff]

lemma chunkEnd_of_final {file : SrcFile} {o : Int}
    (h : (file.size : Int) ≤ o + CHUNK_SIZE) :
    chunkEnd file o = (file.size : Int) := min_eq_left h

lemma chunkEnd_of_not_final {file : SrcFile} {o : Int}
    (h : ¬ (file.size : Int) ≤ o + CHUNK_SIZE) :
    chunkEnd file o = o + CHUNK_SIZE := min_eq_right (le_of_not_le h)

lemma mem_sendFileChunksI_chunkMsg (file : SrcFile) :
    ∀ (fuel : Nat) (interf : List (Option ConnectionStatus))
      (ctx : ConnectionContext) (o : Int) (m : Message),
      m ∈ (sendFileChunksI file fuel interf ctx o).2 → ∃ o2, m = chunkMsg file o2 := by
  intro fuel
  induction fuel with
  | zero => intro interf ctx o m hm; simp [sendFileChunksI] at hm
  | succ n ih =>
    intro interf ctx o m hm
    by_cases hgate : ctx.connOpen = false ∨ ctx.status ≠ ConnectionStatus.Uploading
    · rw [sendFileChunksI, if_pos hgate] at hm
      simp at hm
    · rw [sendFileChunksI, if_neg hgate] at hm
      by_cases hfin : chunkFinal file o = true
      · simp [sendChunkStep, hfin] at hm
        exact ⟨o, hm⟩
      · simp [sendChunkStep, hfin] at hm
        rcases hm with h0 | hrest
        · exact ⟨o, h0⟩
        · exact ih _ _ _ m hrest

lemma sendChunkStep_final {file : SrcFile} {o : Int} (ctx : ConnectionContext)
    (h : chunkFinal file o = true) :
    sendChunkStep file ctx o =
      (finalAdvance (chunkProgressCtx file ctx o), chunkMsg file o, none) := by
  simp [sendChunkStep, h]

lemma sendChunkStep_not_final {file : SrcFile} {o : Int} (ctx : ConnectionContext)
    (h : chunkFinal file o = false) :
    sendChunkStep file ctx o =
      (chunkProgressCtx file ctx o, chunkMsg file o, some (chunkEnd file o)) := by
  simp [sendChunkStep, h]

@[simp] lemma applyInterference_fileIndex (interf : List (Option ConnectionStatus))
    (ctx : ConnectionContext) :
    (applyInterference interf ctx).fileIndex = ctx.fileIndex := by
  rcases interf with _ | ⟨_ | s, tl⟩ <;> simp [applyInterference]

@[simp] lemma applyInterference_totalFiles (interf : List (Option ConnectionStatus))
    (ctx : ConnectionContext) :
    (applyInterference interf ctx).totalFiles = ctx.totalFiles := by
  rcases interf with _ | ⟨_ | s, tl⟩ <;> simp [applyInterference]

@[simp] lemma applyInterference_totalBytes (interf : List (Option ConnectionStatus))
    (ctx : ConnectionContext) :
    (applyInterference interf ctx).totalBytes = ctx.totalBytes := by
  rcases interf with _ | ⟨_ | s, tl⟩ <;> simp [applyInterference]

@[simp] lemma applyInterference_nil (ctx : ConnectionContext) :
    applyInterference [] ctx = ctx := rfl

lemma sendFileChunksI_fileIndex_bounds (file : SrcFile) :
    ∀ (fuel : Nat) (interf : List (Option ConnectionStatus))
      (ctx : ConnectionContext) (o : Int),
      ctx.fileIndex ≤ ctx.totalFiles →
      ctx.fileIndex ≤ (sendFileChunksI file fuel interf ctx o).1.fileIndex ∧
      (sendFileChunksI file fuel interf ctx o).1.fileIndex ≤ ctx.totalFiles ∧
      (sendFileChunksI file fuel interf ctx o).1.totalFiles = ctx.totalFiles := by
  intro fuel
  induction fuel with
  | zero => intro interf ctx o h; simp [sendFileChunksI]; omega
  | succ n ih =>
    intro interf ctx o h
    by_cases hgate : ctx.connOpen = false ∨ ctx.status ≠ ConnectionStatus.Uploading
    · rw [sendFileChunksI, if_pos hgate]; exact ⟨le_refl _, h, rfl⟩
    · rw [sendFileChunksI, if_neg hgate]
      by_cases hfin : chunkFinal file o = true
      · rw [sendChunkStep_final ctx hfin]
        unfold finalAdvance chunkProgressCtx
        by_cases hlt : ctx.fileIndex < ctx.totalFiles - 1
        · simp [hlt]; omega
        · simp [hlt]; omega
      · rw [sendChunkStep_not_final ctx (by simpa using hfin)]
        dsimp only
        have hIH := ih interf.tail
          (applyInterference interf (chunkProgressCtx file ctx o))
          (chunkEnd file o)
          (by simp [chunkProgressCtx]; omega)
        simp only [applyInterference_fileIndex, applyInterference_totalFiles] at hIH
        simp only [chunkProgressCtx] at hIH ⊢
        exact ⟨hIH.1, by omega, by omega⟩

lemma blobClamp_of_nonneg_le {len : Nat} {i : Int} (h0 : 0 ≤ i)
    (h : i ≤ (len : Int)) : blobClamp len i = i.toNat := by
  unfold blobClamp
  rw [if_neg (not_lt.2 h0)]
  exact min_eq_left (by omega)

lemma blobSlice_drop_take {content : List Nat} {a b : Int} (h0 : 0 ≤ a)
    (hab : a ≤ b) (hb : b ≤ (content.length : Int)) :
    blobSlice content a b = (content.drop a.toNat).take (b.toNat - a.toNat) := by
  unfold blobSlice
  rw [blobClamp_of_nonneg_le h0 (le_trans hab hb),
      blobClamp_of_nonneg_le (le_trans h0 hab) hb]

lemma blobSlice_to_end {content : List Nat} {a : Int} (h0 : 0 ≤ a)
    (ha : a ≤ (content.length : Int)) :
    blobSlice content a (content.length : Int) = content.drop a.toNat := by
  rw [blobSlice_drop_take h0 ha le_rfl]
  have hlen : (content.drop a.toNat).length = content.length - a.toNat := by
    simp [List.length_drop]
  apply List.take_of_length_le
  omega

lemma CHUNK_SIZE_pos : (0 : Int) < CHUNK_SIZE := by decide

lemma sendFileChunksI_closed_form (file : SrcFile) :
    ∀ (fuel : Nat) (ctx : ConnectionContext) (o : Int),
      ctx.connOpen = true → ctx.status = ConnectionStatus.Uploading →
      0 ≤ o → o ≤ (file.size : Int) →
      (file.size : Int) ≤ o + CHUNK_SIZE * fuel → 1 ≤ fuel →
      (∀ (i : Nat) (m : Message),
        (sendFileChunksI file fuel [] ctx o).2.get? i = some m →
        m = chunkMsg file (o + CHUNK_SIZE * i)) ∧
      ((sendFileChunksI file fuel [] ctx o).2.map chunkBytes).flatten =
        file.content.drop o.toNat ∧
      (sendFileChunksI file fuel [] ctx o).2 ≠ [] := by
  intro fuel
  induction fuel with
  | zero => intro ctx o _ _ _ _ _ hf1; omega
  | succ n ih =>
    intro ctx o hopen hst h0 hS hfuel _
    have hgate : ¬ (ctx.connOpen = false ∨ ctx.status ≠ ConnectionStatus.Uploading) := by
      simp [hopen, hst]
    by_cases hfin : chunkFinal file o = true
    · have hend : chunkEnd file o = (file.size : Int) :=
        chunkEnd_of_final ((chunkFinal_true_iff file o).1 hfin)
      rw [sendFileChunksI, if_neg hgate, sendChunkStep_final ctx hfin]
      refine ⟨?_, ?_, by simp⟩
      · intro i m hm
        cases i with
        | zero => simp at hm; simpa using hm.symm
        | succ j => simp at hm
      · simp only [List.map_cons, List.map_nil, List.flatten_cons,
          List.flatten_nil, List.append_nil, chunkMsg, chunkBytes]
        have hlen : ((file.size : Nat) : Int) = ((file.content.length : Nat) : Int) := rfl
        have hS2 : o ≤ (file.content.length : Int) := hlen ▸ hS
        rw [hend, hlen, blobSlice_to_end h0 hS2]
    · have hlt : o + CHUNK_SIZE < (file.size : Int) := by
        have := (chunkFinal_true_iff file o).not.1 (by simp [hfin])
        omega
      have hend : chunkEnd file o = o + CHUNK_SIZE :=
        chunkEnd_of_not_final (by omega)
      rw [sendFileChunksI, if_neg hgate,
          sendChunkStep_not_final ctx (by simpa using hfin)]
      dsimp only
      simp only [List.tail_nil, applyInterference_nil]
      have hn1 : 1 ≤ n := by
        rcases Nat.eq_zero_or_pos n with h | h
        · subst h; simp at hfuel; omega
        · omega
      have hIH := ih (chunkProgressCtx file ctx o) (o + CHUNK_SIZE)
        (by simp [chunkProgressCtx, hopen])
        (by simp [chunkProgressCtx, hst])
        (by have := CHUNK_SIZE_pos; omega)
        (le_of_lt hlt)
        (by push_cast at hfuel ⊢; ring_nf at hfuel ⊢; omega)
        hn1
      rw [hend]
      refine ⟨?_, ?_, by simp⟩
      · intro i m hm
        cases i with
        | zero => simp at hm; simpa using hm.symm
        | succ j =>
          simp only [List.get?_cons_succ] at hm
          rw [hIH.1 j m hm]
          congr 1
          push_cast
          ring
      · simp only [List.map_cons, List.flatten_cons]
        rw [hIH.2.1]
        simp only [chunkMsg, chunkBytes]
        rw [hend]
        have hlen : ((file.size : Nat) : Int) = ((file.content.length : Nat) : Int) := rfl
        have hb2 : o + CHUNK_SIZE ≤ (file.content.length : Int) :=
          hlen ▸ le_of_lt hlt
        have hab2 : o ≤ o + CHUNK_SIZE := by have := CHUNK_SIZE_pos; omega
        have hslice := @blobSlice_drop_take file.content o (o + CHUNK_SIZE) h0 hab2 hb2
        rw [hslice]
        have htn : (o + CHUNK_SIZE).toNat = o.toNat + CHUNK_SIZE.toNat := by omega
        rw [htn]
        have hsub : o.toNat + CHUNK_SIZE.toNat - o.toNat = CHUNK_SIZE.toNat := by omega
        rw [hsub]
        rw [← List.drop_drop]
        exact List.take_append_drop _ _

/-- Claim C1: from any starting offset o with 0 ≤ o ≤ S, while the context
stays Uploading (no interference, open connection) the chunk loop emits
exactly the chunks `Chunk{fileName, offset = o + i*CHUNK_SIZE,
bytes = slice(offset, min(S, offset + CHUNK_SIZE)), final = end ≥ S}`;
consecutive chunk offsets strictly increase by at most the chunk size, and
the concatenation of all emitted chunk bytes is the file content from o to S
with no duplication and no gaps. -/
theorem sendFileChunks_emits_exact_byte_stream
    (file : SrcFile) (fuel : Nat) (ctx : ConnectionContext) (o : Int)
    (hopen : ctx.connOpen = true) (hst : ctx.status = ConnectionStatus.Uploading)
    (h0 : 0 ≤ o) (hS : o ≤ (file.size : Int))
    (hfuel : (file.size : Int) ≤ o + CHUNK_SIZE * fuel) (hf1 : 1 ≤ fuel) :
    (∀ (i : Nat) (m : Message),
      (sendFileChunksI file fuel [] ctx o).2.get? i = some m →
      m = Message.Chunk file.name (o + CHUNK_SIZE * i)
        (blobSlice file.content (o + CHUNK_SIZE * i)
          (chunkEnd file (o + CHUNK_SIZE * i)))
        (chunkFinal file (o + CHUNK_SIZE * i))) ∧
    (∀ (i : Nat) (m m2 : Message),
      (sendFileChunksI file fuel [] ctx o).2.get? i = some m →
      (sendFileChunksI file fuel [] ctx o).2.get? (i + 1) = some m2 →
      chunkOffset m < chunkOffset m2 ∧
      chunkOffset m2 ≤ chunkOffset m + CHUNK_SIZE) ∧
    ((sendFileChunksI file fuel [] ctx o).2.map chunkBytes).flatten =
      file.content.drop o.toNat ∧
    (sendFileChunksI file fuel [] ctx o).2 ≠ [] := by
  have h := sendFileChunksI_closed_form file fuel ctx o hopen hst h0 hS hfuel hf1
  refine ⟨?_, ?_, h.2.1, h.2.2⟩
  · intro i m hm
    rw [h.1 i m hm]
    rfl
  · intro i m m2 hm hm2
    rw [h.1 i m hm, h.1 (i + 1) m2 hm2]
    simp only [chunkMsg, chunkOffset]
    have hc := CHUNK_SIZE_pos
    push_cast
    constructor <;> nlinarith

/-- Witness for C1 at the 3-byte file `fA3`, offset 0, fuel 1. -/
theorem sendFileChunks_emits_exact_byte_stream_witness :
    ctxUp.connOpen = true ∧ ctxUp.status = ConnectionStatus.Uploading ∧
    (0 : Int) ≤ 0 ∧ (0 : Int) ≤ (fA3.size : Int) ∧
    (fA3.size : Int) ≤ 0 + CHUNK_SIZE * (1 : Nat) ∧ (1 : Nat) ≤ 1 ∧
    ((sendFileChunksI fA3 1 [] ctxUp 0).2.map chunkBytes).flatten =
      [1, 2, 3] ∧
    (sendFileChunksI fA3 1 [] ctxUp 0).2 ≠ [] := by
  have h := sendFileChunks_emits_exact_byte_stream fA3 1 ctxUp 0 rfl rfl
    (by decide) (by decide) (by decide) (by decide)
  exact ⟨rfl, rfl, by decide, by decide, by decide, by decide,
    by rw [h.2.2.1]; rfl, h.2.2.2⟩

/-- Claim C4 (code bug): `handleResume` passes the receiver-supplied offset
to the chunk loop without clamping it into [0, fileSize].  At offset -3 on a
10-byte file the emitted chunk carries offset field -3 and, per Blob.slice
semantics, only the last three bytes, while `bytesTransferred` becomes
13 > totalBytes = 10; a clamped implementation would emit offset 0 with all
ten bytes and bytesTransferred 10. -/
theorem handleResume_uses_unclamped_offset :
    (handleResume uTen (initialContext uTen) "f" (-3)).2 =
      [Message.Chunk "f" (-3) [80, 90, 100] true] ∧
    (handleResume uTen (initialContext uTen) "f" (-3)).1.bytesTransferred = 13 ∧
    (handleResume uTen (initialContext uTen) "f" (-3)).1.totalBytes = 10 := by
  refine ⟨by decide, by decide, by decide⟩

/-- Claim C8: a Start or Resume naming a file absent from the offer makes
the sender send exactly one Error message and leave the connection context
completely unchanged; no Chunk is sent. -/
theorem unknown_file_start_sends_error_only
    (u : Uploader) (ctx : ConnectionContext) (fileName : String) (offset : Int)
    (h : findFile u.files fileName = none) :
    handleData u ctx (Message.Start fileName offset) =
      (ctx, [Message.Error ("File not found: " ++ fileName)]) ∧
    handleData u ctx (Message.Resume fileName offset) =
      (ctx, [Message.Error ("File not found: " ++ fileName)]) := by
  constructor <;> simp [handleData, handleStart, handleResume, h]

/-- Witness for C8: Start and Resume for the unknown name "zzz". -/
theorem unknown_file_start_sends_error_only_witness :
    findFile uReplay.files "zzz" = none ∧
    handleData uReplay (initialContext uReplay) (Message.Start "zzz" 0) =
      (initialContext uReplay, [Message.Error "File not found: zzz"]) ∧
    handleData uReplay (initialContext uReplay) (Message.Resume "zzz" 0) =
      (initialContext uReplay, [Message.Error "File not found: zzz"]) := by
  have h := unknown_file_start_sends_error_only uReplay (initialContext uReplay)
    "zzz" 0 (by decide)
  exact ⟨by decide, h.1, h.2⟩

/-- Claim C9 counterexample: with one peer in the Ready state, replacing the
offer by the empty list sends no Info at all, because `setFiles` only
announces when `this.files.length > 0`; the claim asserts an Info would be
sent to the Ready peer even for an empty replacement. -/
theorem setFiles_empty_list_sends_nothing :
    sReady.connections.map (fun pc => pc.2.status) = [ConnectionStatus.Ready] ∧
    (setFiles sReady []).2 = [] := by
  exact ⟨by decide, by decide⟩

/-- Claim C9 (amended): `setFiles` replaces the offer wholesale; when the
new list is non-empty it sends exactly one Info carrying the new file list
to every peer whose status is Ready and to no one else; when the new list is
empty it sends nothing at all. -/
theorem setFiles_replaces_offer_and_announces_ready_peers
    (s : UploaderSession) (fs : List SrcFile) :
    (setFiles s fs).1.files = fs ∧
    (fs = [] → (setFiles s fs).2 = []) ∧
    (fs ≠ [] → ∀ p c, (p, c) ∈ s.connections →
      c.status = ConnectionStatus.Ready →
      (p, Message.Info (getFileInfo fs)) ∈ (setFiles s fs).2) ∧
    (∀ p m, (p, m) ∈ (setFiles s fs).2 →
      m = Message.Info (getFileInfo fs) ∧
      ∃ c, (p, c) ∈ s.connections ∧ c.status = ConnectionStatus.Ready) := by
  refine ⟨?_, ?_, ?_, ?_⟩
  · cases fs <;> simp [setFiles]
  · intro hfs; subst hfs; simp [setFiles]
  · intro hfs p c hmem hc
    have hlen : fs.length > 0 := by
      cases fs with
      | nil => exact absurd rfl hfs
      | cons a l => simp
    simp only [setFiles, if_pos hlen]
    exact List.mem_filterMap.mpr ⟨(p, c), hmem, by simp [hc]⟩
  · intro p m hmem
    by_cases hlen : fs.length > 0
    · simp only [setFiles, if_pos hlen] at hmem
      rcases List.mem_filterMap.mp hmem with ⟨⟨p2, c2⟩, hmem2, heq⟩
      by_cases hc2 : c2.status = ConnectionStatus.Ready
      · rw [if_pos hc2] at heq
        have hinj := Option.some.inj heq
        have hp1 : p2 = p := congrArg Prod.fst hinj
        have hm1 : Message.Info (getFileInfo fs) = m := congrArg Prod.snd hinj
        exact ⟨hm1.symm, c2, hp1 ▸ hmem2, hc2⟩
      · rw [if_neg hc2] at heq
        exact absurd heq (by simp)
    · simp only [setFiles, if_neg hlen] at hmem
      exact absurd hmem (by simp)

/-- Witness for C9 (amended) at a session with one Ready peer and a
non-empty replacement list. -/
theorem setFiles_replaces_offer_and_announces_ready_peers_witness :
    (setFiles sReady uTen.files).1.files = uTen.files ∧
    ("peer1", Message.Info (getFileInfo uTen.files)) ∈
      (setFiles sReady uTen.files).2 := by
  have h := setFiles_replaces_offer_and_announces_ready_peers sReady uTen.files
  refine ⟨h.1, ?_⟩
  exact h.2.2.1 (by decide) "peer1"
    { initialContext uReplay with status := ConnectionStatus.Ready }
    (by decide) rfl

/-- Claim C10: `handleStart` imposes no precondition on the connection
status: from any status (Pending, Authenticating, InvalidPassword, ...), a
Start naming an offered file rewrites the context to Uploading with the
name and offset recorded and runs the chunk loop; on an open connection the
first message sent is already a Chunk of the file, for any configured
password, so an unauthenticated peer receives file bytes.  `handleResume`
behaves identically. -/
theorem handleStart_ignores_connection_status
    (u : Uploader) (ctx : ConnectionContext) (fileName : String) (offset : Int)
    (file : SrcFile) (h : findFile u.files fileName = some file) :
    handleData u ctx (Message.Start fileName offset) =
      sendFileChunksI file (chunkFuel file offset) []
        (startCtx ctx fileName offset) offset ∧
    (startCtx ctx fileName offset).status = ConnectionStatus.Uploading ∧
    (startCtx ctx fileName offset).uploadingFileName = some fileName ∧
    (startCtx ctx fileName offset).uploadingOffset = some offset ∧
    (ctx.connOpen = true →
      (handleData u ctx (Message.Start fileName offset)).2.get? 0 =
        some (chunkMsg file offset) ∧
      (handleData u ctx (Message.Resume fileName offset)).2.get? 0 =
        some (chunkMsg file offset)) := by
  have hrun : ∀ z : ConnectionContext × List Message,
      z = sendFileChunksI file (chunkFuel file offset) []
        (startCtx ctx fileName offset) offset →
      ctx.connOpen = true → z.2.get? 0 = some (chunkMsg file offset) := by
    intro z hz hopen
    have hfuel : chunkFuel file offset =
        ((file.size : Int) - offset).toNat + 1 := rfl
    rw [hfuel] at hz
    rw [sendFileChunksI] at hz
    rw [if_neg (by simp [startCtx, hopen])] at hz
    by_cases hfin : chunkFinal file offset = true
    · rw [sendChunkStep_final _ hfin] at hz
      rw [hz]
      rfl
    · rw [sendChunkStep_not_final _ (by simpa using hfin)] at hz
      rw [hz]
      rfl
  refine ⟨by simp [handleData, handleStart, h], rfl, rfl, rfl, ?_⟩
  intro hopen
  constructor
  · have := hrun (sendFileChunksI file (chunkFuel file offset) []
      (startCtx ctx fileName offset) offset) rfl hopen
    simpa [handleData, handleStart, h] using this
  · have := hrun (sendFileChunksI file (chunkFuel file offset) []
      (startCtx ctx fileName offset) offset) rfl hopen
    simpa [handleData, handleResume, h] using this

/-- Witness for C10: a password-protected sender and a Pending, never
authenticated peer still receives the first data chunk on Start. -/
theorem handleStart_ignores_connection_status_witness :
    findFile uAuth.files "a" = some { name := "a", type := "", content := [7] } ∧
    uAuth.password = some "pw" ∧
    (initialContext uAuth).status = ConnectionStatus.Pending ∧
    (handleData uAuth (initialContext uAuth) (Message.Start "a" 0)).2.get? 0 =
      some (chunkMsg { name := "a", type := "", content := [7] } 0) := by
  have h := handleStart_ignores_connection_status uAuth (initialContext uAuth)
    "a" 0 { name := "a", type := "", content := [7] } (by decide)
  exact ⟨by decide, rfl, rfl, (h.2.2.2.2 rfl).1⟩

/-- Claim C2 counterexample: replaying Start for an already fully sent file
is accepted (handleStart has no status guard) and adds the file bytes to
`bytesTransferred` a second time, violating the claimed invariant
`bytesTransferred ≤ totalBytes` in a reachable context. -/
theorem replayed_start_exceeds_totalBytes :
    (runMessages uReplay (initialContext uReplay)
      [Message.Start "a" 0, Message.Start "a" 0]).1.bytesTransferred = 2 ∧
    (runMessages uReplay (initialContext uReplay)
      [Message.Start "a" 0, Message.Start "a" 0]).1.totalBytes = 1 ∧
    ¬ (runMessages uReplay (initialContext uReplay)
        [Message.Start "a" 0, Message.Start "a" 0]).1.bytesTransferred ≤
      (runMessages uReplay (initialContext uReplay)
        [Message.Start "a" 0, Message.Start "a" 0]).1.totalBytes := by
  exact ⟨by decide, by decide, by decide⟩

/-- Claim C3 counterexample: with password "pw" configured and no correct
UsePassword ever sent, the message sequence RequestInfo, wrong UsePassword,
Start for an offered file drives the connection status to Ready (the Start
handler ignores the authentication state and, after the first of two files
completes, the chunk loop sets Ready), contradicting the claim that the
status stays Authenticating or InvalidPassword and is never Ready. -/
theorem start_reaches_ready_without_password :
    uAuth.password = some "pw" ∧
    (runMessages uAuth (initialContext uAuth)
      [Message.RequestInfo, Message.UsePassword "x",
        Message.Start "a" 0]).1.status = ConnectionStatus.Ready := by
  exact ⟨rfl, by decide⟩

/-- Claim C5 counterexample: on the receiver, a zero-size current file gives
`currentFileProgress = bytesReceived / (0 || 1) = 0`, not the claimed 1. -/
theorem zero_size_file_progress_is_zero_not_one :
    (getProgress dZero).currentFileProgress = 0 ∧
    (getProgress dZero).currentFileProgress ≠ 1 := by
  have h : (getProgress dZero).currentFileProgress = 0 := by
    norm_num [getProgress, dZero, jsOrNat]
  exact ⟨h, by rw [h]; norm_num⟩

/-- Claim C5 (amended): the receiver guards both divisions with `|| 1`, so a
current file of nonzero size gives bytes ÷ size, a zero-size current file
gives bytesReceived ÷ 1 = bytesReceived (hence 0, not the claimed 1, before
any bytes arrive), a zero totalBytes gives totalReceived ÷ 1 (0 only because
nothing can be received), and a nonzero totalBytes gives the claimed ratio.
The sender divides unguarded: totalBytes = 0 makes `overallProgress`
non-finite (NaN) instead of the claimed 0, and a zero-size file makes the
`currentFileProgress` carried by the progress event non-finite (NaN) instead
of the claimed 1; with nonzero denominators the sender computes the claimed
ratio. -/
theorem progress_formulas_guarded_receiver_unguarded_sender :
    (∀ (d : DownloaderState) (fi : FileInfo),
      d.filesInfo.get? d.currentFileIndex = some fi → fi.size ≠ 0 →
      (getProgress d).currentFileProgress =
        (d.currentFileBytesReceived : Rat) / (fi.size : Rat)) ∧
    (∀ (d : DownloaderState) (fi : FileInfo),
      d.filesInfo.get? d.currentFileIndex = some fi → fi.size = 0 →
      (getProgress d).currentFileProgress =
        (d.currentFileBytesReceived : Rat)) ∧
    (∀ d : DownloaderState, d.totalBytes = 0 →
      (getProgress d).overallProgress = (d.totalBytesReceived : Rat)) ∧
    (∀ d : DownloaderState, d.totalBytes ≠ 0 →
      (getProgress d).overallProgress =
        (d.totalBytesReceived : Rat) / (d.totalBytes : Rat)) ∧
    (∀ ctx : ConnectionContext, ctx.totalBytes = 0 →
      (getProgressInfo ctx).overallProgress = none) ∧
    (∀ ctx : ConnectionContext, ctx.totalBytes ≠ 0 →
      (getProgressInfo ctx).overallProgress =
        some ((ctx.bytesTransferred : Rat) / (ctx.totalBytes : Rat))) ∧
    (∀ (file : SrcFile) (ctx : ConnectionContext) (o : Int), file.size = 0 →
      (chunkProgressCtx file ctx o).currentFileProgress = none) ∧
    (∀ (file : SrcFile) (ctx : ConnectionContext) (o : Int), file.size ≠ 0 →
      (chunkProgressCtx file ctx o).currentFileProgress =
        some ((chunkEnd file o : Rat) / (file.size : Rat))) := by
  refine ⟨?_, ?_, ?_, ?_, ?_, ?_, ?_, ?_⟩
  · intro d fi hget hsz
    have hget2 : d.filesInfo[d.currentFileIndex]? = some fi := by
      simpa using hget
    simp [getProgress, hget2, jsOrNat, hsz]
  · intro d fi hget hsz
    have hget2 : d.filesInfo[d.currentFileIndex]? = some fi := by
      simpa using hget
    simp [getProgress, hget2, jsOrNat, hsz]
  · intro d htb
    simp [getProgress, htb, jsOrNat]
  · intro d htb
    simp [getProgress, jsOrNat, htb]
  · intro ctx htb
    simp [getProgressInfo, jsDiv, htb]
  · intro ctx htb
    simp [getProgressInfo, jsDiv, htb]
  · intro file ctx o hsz
    simp [chunkProgressCtx, jsDiv, hsz]
  · intro file ctx o hsz
    simp [chunkProgressCtx, jsDiv, hsz]

/-- Witness for C5 (amended): the halfway receiver state gives 1/2; a
sender context with empty offer gives a non-finite overall progress. -/
theorem progress_formulas_witness :
    dHalf.filesInfo.get? dHalf.currentFileIndex =
      some { fileName := "a", size := 2, type := "" } ∧
    (getProgress dHalf).currentFileProgress = (1 : Rat) / 2 ∧
    (initialContext { files := [], password := none }).totalBytes = 0 ∧
    (getProgressInfo
      (initialContext { files := [], password := none })).overallProgress =
      none := by
  have h := progress_formulas_guarded_receiver_unguarded_sender
  refine ⟨by decide, ?_, rfl, ?_⟩
  · have := h.1 dHalf { fileName := "a", size := 2, type := "" }
      (by decide) (by decide)
    rw [this]
    norm_num [dHalf]
  · exact h.2.2.2.2.1 _ rfl

lemma sendFileChunksI_gate_stop (file : SrcFile) (fuel : Nat)
    (interf : List (Option ConnectionStatus)) (ctx : ConnectionContext)
    (o : Int)
    (hgate : ctx.connOpen = false ∨ ctx.status ≠ ConnectionStatus.Uploading) :
    sendFileChunksI file fuel interf ctx o = (ctx, []) := by
  cases fuel with
  | zero => rfl
  | succ n => rw [sendFileChunksI, if_pos hgate]

/-- Claim C6: the chunk loop sends nothing once the pre-chunk check observes
a non-Uploading status (or a closed connection), and when a handler running
at the k-th yield point between chunks sets a non-Uploading status, the run
emits at most k+1 chunks in total — nothing after that check. -/
theorem chunk_loop_stops_after_non_uploading :
    (∀ (file : SrcFile) (fuel : Nat) (interf : List (Option ConnectionStatus))
      (ctx : ConnectionContext) (o : Int),
      ctx.connOpen = false ∨ ctx.status ≠ ConnectionStatus.Uploading →
      sendFileChunksI file fuel interf ctx o = (ctx, [])) ∧
    (∀ (file : SrcFile) (fuel : Nat) (interf : List (Option ConnectionStatus))
      (ctx : ConnectionContext) (o : Int) (k : Nat) (s : ConnectionStatus),
      interf.get? k = some (some s) → s ≠ ConnectionStatus.Uploading →
      (sendFileChunksI file fuel interf ctx o).2.length ≤ k + 1) := by
  constructor
  · exact sendFileChunksI_gate_stop
  · intro file fuel
    induction fuel with
    | zero => intro interf ctx o k s hk hs; simp [sendFileChunksI]
    | succ n ih =>
      intro interf ctx o k s hk hs
      by_cases hgate : ctx.connOpen = false ∨ ctx.status ≠ ConnectionStatus.Uploading
      · rw [sendFileChunksI, if_pos hgate]; simp
      · rw [sendFileChunksI, if_neg hgate]
        by_cases hfin : chunkFinal file o = true
        · rw [sendChunkStep_final _ hfin]; simp
        · rw [sendChunkStep_not_final _ (by simpa using hfin)]
          dsimp only
          cases k with
          | zero =>
            cases interf with
            | nil => simp at hk
            | cons hd tl =>
              simp at hk
              subst hk
              have hstop := sendFileChunksI_gate_stop file n tl
                (applyInterference (some s :: tl)
                  (chunkProgressCtx file ctx o)) (chunkEnd file o)
                (Or.inr (by simp [applyInterference, hs]))
              simp [hstop]
          | succ j =>
            cases interf with
            | nil => simp at hk
            | cons hd tl =>
              simp only [List.get?_cons_succ] at hk
              have := ih tl (applyInterference (hd :: tl)
                (chunkProgressCtx file ctx o)) (chunkEnd file o) j s hk hs
              simp only [List.tail_cons, List.length_cons]
              omega

/-- Witness for C6: a Paused context gets no chunks at all, and with a
handler pausing at the first yield point the 3-byte run emits at most one
chunk. -/
theorem chunk_loop_stops_after_non_uploading_witness :
    ({ ctxUp with status := ConnectionStatus.Paused } :
        ConnectionContext).status ≠ ConnectionStatus.Uploading ∧
    sendFileChunksI fA3 2 [] { ctxUp with status := ConnectionStatus.Paused } 0 =
      ({ ctxUp with status := ConnectionStatus.Paused }, []) ∧
    ([some ConnectionStatus.Paused] :
        List (Option ConnectionStatus)).get? 0 =
      some (some ConnectionStatus.Paused) ∧
    ConnectionStatus.Paused ≠ ConnectionStatus.Uploading ∧
    (sendFileChunksI fA3 2 [some ConnectionStatus.Paused] ctxUp 0).2.length ≤
      0 + 1 := by
  have h := chunk_loop_stops_after_non_uploading
  exact ⟨by decide,
    h.1 fA3 2 [] _ 0 (Or.inr (by decide)),
    rfl,
    by decide,
    h.2 fA3 2 [some ConnectionStatus.Paused] ctxUp 0 0
      ConnectionStatus.Paused rfl (by decide)⟩

lemma handleData_no_info (u : Uploader) (ctx : ConnectionContext) (m : Message)
    (fs : List FileInfo) (hpw : isTruthy u.password = true)
    (hm : ∀ p, m = Message.UsePassword p → u.password ≠ some p) :
    Message.Info fs ∉ (handleData u ctx m).2 := by
  cases m with
  | RequestInfo =>
    simp [handleData, handleRequestInfo, hpw]
  | UsePassword p =>
    have hne : ¬ u.password = some p := hm p rfl
    simp [handleData, handleUsePassword, hne]
  | Start fileName offset =>
    cases hfind : findFile u.files fileName with
    | none => simp [handleData, handleStart, hfind]
    | some file =>
      intro hmem
      simp only [handleData, handleStart, hfind] at hmem
      rcases mem_sendFileChunksI_chunkMsg file _ _ _ _ _ hmem with ⟨o2, ho2⟩
      simp [chunkMsg] at ho2
  | Resume fileName offset =>
    cases hfind : findFile u.files fileName with
    | none => simp [handleData, handleResume, hfind]
    | some file =>
      intro hmem
      simp only [handleData, handleResume, hfind] at hmem
      rcases mem_sendFileChunksI_chunkMsg file _ _ _ _ _ hmem with ⟨o2, ho2⟩
      simp [chunkMsg] at ho2
  | Pause => simp [handleData, handlePause]
  | Done => simp [handleData, handleDone]
  | PasswordRequired e => simp [handleData]
  | Info f2 => simp [handleData]
  | Chunk a b c d => simp [handleData]
  | Error e => simp [handleData]
  | Report => simp [handleData]

lemma handleData_auth_status (u : Uploader) (ctx : ConnectionContext)
    (m : Message) (hpw : isTruthy u.password = true)
    (hm : m = Message.RequestInfo ∨
      ∃ p, m = Message.UsePassword p ∧ u.password ≠ some p) :
    (handleData u ctx m).1.status = ConnectionStatus.Authenticating ∨
    (handleData u ctx m).1.status = ConnectionStatus.InvalidPassword := by
  rcases hm with h | ⟨p, hp, hne⟩
  · subst h
    left
    simp [handleData, handleRequestInfo, hpw]
  · subst hp
    right
    simp [handleData, handleUsePassword, hne]

/-- Claim C3 (amended): with a truthy password configured, a peer whose
messages never include the correct password is never sent an Info message,
whatever else it sends; and if the peer confines itself to RequestInfo and
wrong-password UsePassword messages its status stays in
{Pending, Authenticating, InvalidPassword} and never reaches Ready.  (The
restriction to RequestInfo/UsePassword traffic is forced: a Start or Resume
naming an offered file is accepted in any state and, after a non-last file
completes, parks the connection in Ready — see the counterexample.) -/
theorem password_gate_without_start_messages :
    (∀ (u : Uploader) (ctx : ConnectionContext) (msgs : List Message)
      (fs : List FileInfo), isTruthy u.password = true →
      (∀ p, Message.UsePassword p ∈ msgs → u.password ≠ some p) →
      Message.Info fs ∉ (runMessages u ctx msgs).2) ∧
    (∀ (u : Uploader) (ctx : ConnectionContext) (msgs : List Message),
      isTruthy u.password = true →
      (∀ m ∈ msgs, m = Message.RequestInfo ∨
        ∃ p, m = Message.UsePassword p ∧ u.password ≠ some p) →
      (ctx.status = ConnectionStatus.Pending ∨
       ctx.status = ConnectionStatus.Authenticating ∨
       ctx.status = ConnectionStatus.InvalidPassword) →
      ((runMessages u ctx msgs).1.status = ConnectionStatus.Pending ∨
       (runMessages u ctx msgs).1.status = ConnectionStatus.Authenticating ∨
       (runMessages u ctx msgs).1.status = ConnectionStatus.InvalidPassword)) := by
  constructor
  · intro u ctx msgs
    induction msgs generalizing ctx with
    | nil => intro fs _ _; simp [runMessages]
    | cons m ms ih =>
      intro fs hpw hnp
      simp only [runMessages, List.mem_append]
      intro hmem
      rcases hmem with h1 | h2
      · exact handleData_no_info u ctx m fs hpw
          (fun p hp => hnp p (hp ▸ List.mem_cons_self m ms)) h1
      · exact ih _ fs hpw (fun p hp => hnp p (List.mem_cons_of_mem m hp)) h2
  · intro u ctx msgs
    induction msgs generalizing ctx with
    | nil => intro _ _ hst; simpa [runMessages] using hst
    | cons m ms ih =>
      intro hpw hall hst
      simp only [runMessages]
      apply ih
      · exact hpw
      · exact fun m2 hm2 => hall m2 (List.mem_cons_of_mem m hm2)
      · rcases handleData_auth_status u ctx m hpw
          (hall m (List.mem_cons_self m ms)) with h | h
        · exact Or.inr (Or.inl h)
        · exact Or.inr (Or.inr h)

/-- Witness for C3 (amended) at the two-file password-protected sender with
messages RequestInfo then wrong password. -/
theorem password_gate_without_start_messages_witness :
    isTruthy uAuth.password = true ∧
    Message.Info [] ∉ (runMessages uAuth (initialContext uAuth)
      [Message.RequestInfo, Message.UsePassword "x"]).2 ∧
    ((runMessages uAuth (initialContext uAuth)
        [Message.RequestInfo, Message.UsePassword "x"]).1.status =
      ConnectionStatus.Pending ∨
     (runMessages uAuth (initialContext uAuth)
        [Message.RequestInfo, Message.UsePassword "x"]).1.status =
      ConnectionStatus.Authenticating ∨
     (runMessages uAuth (initialContext uAuth)
        [Message.RequestInfo, Message.UsePassword "x"]).1.status =
      ConnectionStatus.InvalidPassword) := by
  have h := password_gate_without_start_messages
  refine ⟨rfl, ?_, ?_⟩
  · exact h.1 uAuth (initialContext uAuth)
      [Message.RequestInfo, Message.UsePassword "x"] [] rfl
      (by intro p hp; simp at hp; subst hp; decide)
  · exact h.2 uAuth (initialContext uAuth)
      [Message.RequestInfo, Message.UsePassword "x"] rfl
      (by intro m hm; simp at hm
          rcases hm with h1 | h2
          · exact Or.inl h1
          · exact Or.inr ⟨"x", h2, by decide⟩)
      (Or.inl rfl)

@[simp] lemma startCtx_fileIndex (ctx : ConnectionContext) (n : String)
    (o : Int) : (startCtx ctx n o).fileIndex = ctx.fileIndex := rfl

@[simp] lemma startCtx_totalFiles (ctx : ConnectionContext) (n : String)
    (o : Int) : (startCtx ctx n o).totalFiles = ctx.totalFiles := rfl


lemma storeCompletedFile_currentFileIndex (d : DownloaderState) (n : String) :
    (storeCompletedFile d n).1.currentFileIndex = d.currentFileIndex := by
  unfold storeCompletedFile
  split <;> simp

/-- Claim C2 (amended): the file index is monotone — on the sender,
`fileIndex` never decreases across any handled message (given the reachable
bound fileIndex ≤ totalFiles) and stays at most totalFiles; on the receiver,
`currentFileIndex` never decreases across a chunk.  The bounds
0 ≤ currentFileProgress ≤ 1 and bytesTransferred ≤ totalBytes are NOT
invariants of all reachable contexts (replayed Starts and out-of-range
Resume offsets break them — see the counterexample); they are preserved by
each chunk-loop step whose offset lies in [0, fileSize] on a file of nonzero
size whose untransferred remainder still fits in totalBytes, which covers
every step of the regular receiver-driven flow. -/
theorem upload_progress_invariants_amended :
    (∀ (u : Uploader) (ctx : ConnectionContext) (m : Message),
      ctx.fileIndex ≤ ctx.totalFiles →
      ctx.fileIndex ≤ (handleData u ctx m).1.fileIndex ∧
      (handleData u ctx m).1.fileIndex ≤ (handleData u ctx m).1.totalFiles) ∧
    (∀ (d : DownloaderState) (n : String) (b : List Nat) (f : Bool),
      d.currentFileIndex ≤ (handleChunk d n b f).1.currentFileIndex) ∧
    (∀ (file : SrcFile) (ctx : ConnectionContext) (o : Int),
      0 ≤ o → o ≤ (file.size : Int) → 0 < file.size →
      ctx.bytesTransferred + ((file.size : Int) - o) ≤ ctx.totalBytes →
      (∀ q : Rat, (sendChunkStep file ctx o).1.currentFileProgress = some q →
        0 ≤ q ∧ q ≤ 1) ∧
      (sendChunkStep file ctx o).1.bytesTransferred ≤
        (sendChunkStep file ctx o).1.totalBytes ∧
      (∀ o2 : Int, (sendChunkStep file ctx o).2.2 = some o2 →
        0 ≤ o2 ∧ o2 ≤ (file.size : Int) ∧
        (sendChunkStep file ctx o).1.bytesTransferred +
          ((file.size : Int) - o2) ≤
          (sendChunkStep file ctx o).1.totalBytes)) := by
  refine ⟨?_, ?_, ?_⟩
  · intro u ctx m hle
    cases m with
    | Start fileName offset =>
      cases hfind : findFile u.files fileName with
      | none => simp [handleData, handleStart, hfind]; omega
      | some file =>
        simp only [handleData, handleStart, hfind]
        have hb := sendFileChunksI_fileIndex_bounds file
          (chunkFuel file offset) [] (startCtx ctx fileName offset) offset
          (by simpa using hle)
        simp only [startCtx_fileIndex, startCtx_totalFiles] at hb
        exact ⟨hb.1, by omega⟩
    | Resume fileName offset =>
      cases hfind : findFile u.files fileName with
      | none => simp [handleData, handleResume, hfind]; omega
      | some file =>
        simp only [handleData, handleResume, hfind]
        have hb := sendFileChunksI_fileIndex_bounds file
          (chunkFuel file offset) [] (startCtx ctx fileName offset) offset
          (by simpa using hle)
        simp only [startCtx_fileIndex, startCtx_totalFiles] at hb
        exact ⟨hb.1, by omega⟩
    | RequestInfo =>
      by_cases hpw : isTruthy u.password = true <;>
        simp [handleData, handleRequestInfo, hpw] <;> omega
    | UsePassword p =>
      by_cases hpw : u.password = some p <;>
        simp [handleData, handleUsePassword, hpw] <;> omega
    | Pause => simp [handleData, handlePause]; omega
    | Done => simp [handleData, handleDone]; omega
    | PasswordRequired e => simp [handleData]; omega
    | Info f2 => simp [handleData]; omega
    | Chunk a b c dd => simp [handleData]; omega
    | Error e => simp [handleData]; omega
    | Report => simp [handleData]; omega
  · intro d n b f
    unfold handleChunk
    cases hls : lookupStream d.fileStreams n with
    | none => simp
    | some st =>
      by_cases hc : st.closed = true
      · simp [hc]
      · simp only [Bool.not_eq_true] at hc
        cases f with
        | false => simp [hc]
        | true =>
          simp only [hc, Bool.false_eq_true, if_false, if_true]
          rw [storeCompletedFile_currentFileIndex]
          dsimp only
          split <;> simp
  · intro file ctx o h0 hS hsz hbt
    have hendle : chunkEnd file o ≤ (file.size : Int) := min_le_left _ _
    have hend0 : o ≤ chunkEnd file o := by
      unfold chunkEnd
      have := CHUNK_SIZE_pos
      omega
    by_cases hfin : chunkFinal file o = true
    · rw [sendChunkStep_final ctx hfin]
      refine ⟨?_, ?_, by intro o2 h; simp at h⟩
      · intro q hq
        unfold finalAdvance chunkProgressCtx at hq
        by_cases hlt : ctx.fileIndex < ctx.totalFiles - 1 <;>
          simp [hlt] at hq <;> rw [← hq] <;> norm_num
      · unfold finalAdvance chunkProgressCtx
        by_cases hlt : ctx.fileIndex < ctx.totalFiles - 1 <;> simp [hlt] <;> omega
    · rw [sendChunkStep_not_final ctx (by simpa using hfin)]
      have hzne : ((file.size : Nat) : Int) ≠ 0 := by
        simp only [ne_eq, Int.natCast_eq_zero]
        omega
      refine ⟨?_, ?_, ?_⟩
      · intro q hq
        simp only [chunkProgressCtx, jsDiv, if_neg hzne] at hq
        have hq2 : ((chunkEnd file o : Int) : Rat) / ((file.size : Int) : Rat) = q := by
          exact_mod_cast Option.some.inj hq
        rw [← hq2]
        constructor
        · apply div_nonneg
          · exact_mod_cast le_trans h0 hend0
          · positivity
        · rw [div_le_one (by exact_mod_cast hsz)]
          exact_mod_cast hendle
      · simp only [chunkProgressCtx]
        omega
      · intro o2 ho2
        simp only at ho2
        have ho2e : chunkEnd file o = o2 := Option.some.inj ho2
        simp only [chunkProgressCtx]
        refine ⟨by omega, by omega, by omega⟩

lemma lookupStream_cons_of_ne {k n : String} {s : StreamState}
    {tl : List (String × StreamState)} (hk : (k == n) = false) :
    lookupStream ((k, s) :: tl) n = lookupStream tl n := by
  simp [lookupStream, List.find?, hk]

lemma lookupStream_updateStream_self (l : List (String × StreamState))
    (n : String) (st v : StreamState) (h : lookupStream l n = some st) :
    lookupStream (updateStream l n v) n = some v := by
  induction l with
  | nil => simp [lookupStream] at h
  | cons hd tl ih =>
    obtain ⟨k, s⟩ := hd
    by_cases hk : (k == n) = true
    · simp [updateStream, lookupStream, List.find?, hk]
    · have hk2 : (k == n) = false := by simpa using hk
      have hupd : updateStream ((k, s) :: tl) n v = (k, s) :: updateStream tl n v := by
        dsimp only [updateStream, List.map_cons]
        rw [if_neg (by simp [hk2])]
      rw [hupd, lookupStream_cons_of_ne hk2]
      rw [lookupStream_cons_of_ne hk2] at h
      exact ih h

/-- Claim C7: applying a final Chunk for the current file seals the stream of that file, appends exactly one CompletedFile holding the accumulated bytes
(keeping the completed list in offer order and retaining earlier entries),
advances the file index, and then either sends Start{nextFile, 0} when more
files remain or moves to Done and surfaces the full completed-file set. -/
theorem handleChunk_final_completes_file
    (d : DownloaderState) (fi : FileInfo) (buf bytes : List Nat)
    (hfi : d.filesInfo.get? d.currentFileIndex = some fi)
    (hstream : lookupStream d.fileStreams fi.fileName =
      some { buffer := buf, closed := false })
    (hfind : d.filesInfo.find? (fun i => i.fileName == fi.fileName) = some fi)
    (horder : d.completedFiles.map (fun cf => cf.fileName) =
      (d.filesInfo.take d.currentFileIndex).map (fun i => i.fileName)) :
    lookupStream (handleChunk d fi.fileName bytes true).1.fileStreams
        fi.fileName = some { buffer := buf ++ bytes, closed := true } ∧
    (handleChunk d fi.fileName bytes true).1.completedFiles =
      d.completedFiles ++ [⟨fi.fileName, fi.size, fi.type, buf ++ bytes⟩] ∧
    (handleChunk d fi.fileName bytes true).1.completedFiles.map
        (fun cf => cf.fileName) =
      (d.filesInfo.take (d.currentFileIndex + 1)).map (fun i => i.fileName) ∧
    (handleChunk d fi.fileName bytes true).1.currentFileIndex =
      d.currentFileIndex + 1 ∧
    (handleChunk d fi.fileName bytes true).1.currentFileBytesReceived = 0 ∧
    (∀ fj, d.filesInfo.get? (d.currentFileIndex + 1) = some fj →
      DEvent.sent (Message.Start fj.fileName 0) ∈
        (handleChunk d fi.fileName bytes true).2 ∧
      (handleChunk d fi.fileName bytes true).1.status = d.status) ∧
    (d.currentFileIndex + 1 = d.filesInfo.length →
      (handleChunk d fi.fileName bytes true).1.status = ConnectionStatus.Done ∧
      DEvent.completeEvent
        ((handleChunk d fi.fileName bytes true).1.completedFiles) ∈
        (handleChunk d fi.fileName bytes true).2) := by
  have h1 : lookupStream (updateStream d.fileStreams fi.fileName
      { buffer := buf ++ bytes, closed := false }) fi.fileName =
      some { buffer := buf ++ bytes, closed := false } :=
    lookupStream_updateStream_self _ _ _ _ hstream
  have h2 : lookupStream (updateStream (updateStream d.fileStreams fi.fileName
      { buffer := buf ++ bytes, closed := false }) fi.fileName
      { buffer := buf ++ bytes, closed := true }) fi.fileName =
      some { buffer := buf ++ bytes, closed := true } :=
    lookupStream_updateStream_self _ _ _ _ h1
  have htake : (d.filesInfo.take (d.currentFileIndex + 1)).map
      (fun i => i.fileName) =
      (d.filesInfo.take d.currentFileIndex).map (fun i => i.fileName) ++
        [fi.fileName] := by
    rw [List.take_succ]
    simp only [List.map_append]
    congr 1
    have hgetElem : d.filesInfo[d.currentFileIndex]? = some fi := by
      simpa using hfi
    rw [hgetElem]
    rfl
  refine ⟨?_, ?_, ?_, ?_, ?_, ?_, ?_⟩
  · simp only [handleChunk, hstream, Bool.false_eq_true, if_false, if_true,
      storeCompletedFile, h2, hfind]
    by_cases hidx : d.currentFileIndex + 1 < d.filesInfo.length <;>
      simp only [if_pos, if_neg, hidx, if_true, if_false] <;> exact h2
  · simp only [handleChunk, hstream, Bool.false_eq_true, if_false, if_true,
      storeCompletedFile, h2, hfind]
    by_cases hidx : d.currentFileIndex + 1 < d.filesInfo.length <;>
      simp [hidx]
  · simp only [handleChunk, hstream, Bool.false_eq_true, if_false, if_true,
      storeCompletedFile, h2, hfind]
    by_cases hidx : d.currentFileIndex + 1 < d.filesInfo.length <;>
      simp only [if_pos, if_neg, hidx, if_true, if_false] <;>
      simp [horder, htake]
  · simp only [handleChunk, hstream, Bool.false_eq_true, if_false, if_true,
      storeCompletedFile, h2, hfind]
    by_cases hidx : d.currentFileIndex + 1 < d.filesInfo.length <;>
      simp [hidx]
  · simp only [handleChunk, hstream, Bool.false_eq_true, if_false, if_true,
      storeCompletedFile, h2, hfind]
    by_cases hidx : d.currentFileIndex + 1 < d.filesInfo.length <;>
      simp [hidx]
  · intro fj hfj
    have hidx : d.currentFileIndex + 1 < d.filesInfo.length := by
      by_contra hc
      rw [List.get?_eq_none.mpr (by omega)] at hfj
      exact Option.noConfusion hfj
    have hfj2 : d.filesInfo[d.currentFileIndex + 1]? = some fj := by
      simpa using hfj
    simp only [handleChunk, hstream, Bool.false_eq_true, if_false, if_true,
      storeCompletedFile, h2, hfind, if_pos hidx]
    refine ⟨?_, by trivial⟩
    simp [requestNextFile, hfj2]
  · intro hlen
    have hidx : ¬ d.currentFileIndex + 1 < d.filesInfo.length := by omega
    simp only [handleChunk, hstream, Bool.false_eq_true, if_false, if_true,
      storeCompletedFile, h2, hfind, if_neg hidx]
    exact ⟨by trivial, by simp⟩

/-- Witness for C7 at the two-file receiver `dTwo`: the final chunk of file
"a" seals its stream, produces its CompletedFile, and requests file "b". -/
theorem handleChunk_final_completes_file_witness :
    dTwo.filesInfo.get? dTwo.currentFileIndex =
      some { fileName := "a", size := 2, type := "" } ∧
    lookupStream dTwo.fileStreams "a" =
      some { buffer := [5], closed := false } ∧
    (handleChunk dTwo "a" [6] true).1.completedFiles =
      [⟨"a", 2, "", [5, 6]⟩] ∧
    DEvent.sent (Message.Start "b" 0) ∈ (handleChunk dTwo "a" [6] true).2 ∧
    lookupStream (handleChunk dTwo "a" [6] true).1.fileStreams "a" =
      some { buffer := [5, 6], closed := true } := by
  have h := handleChunk_final_completes_file dTwo
    { fileName := "a", size := 2, type := "" } [5] [6]
    (by decide) (by decide) (by decide) (by decide)
  refine ⟨by decide, by decide, ?_, ?_, h.1⟩
  · rw [h.2.1]
    rfl
  · exact (h.2.2.2.2.2.1 { fileName := "b", size := 1, type := "" }
      (by decide)).1

/-- Fuel adequacy: with at least `chunkFuel` iterations available, the
no-interference loop result does not depend on the exact fuel, so the
fuel-based embedding computes exactly what the unbounded source loop does. -/
lemma sendFileChunksI_fuel_stable (file : SrcFile) :
    ∀ (n m : Nat) (ctx : ConnectionContext) (o : Int),
      chunkFuel file o ≤ n → chunkFuel file o ≤ m →
      sendFileChunksI file n [] ctx o = sendFileChunksI file m [] ctx o := by
  intro n
  induction n with
  | zero =>
    intro m ctx o hn hm
    exfalso
    unfold chunkFuel at hn
    omega
  | succ k ih =>
    intro m ctx o hn hm
    cases m with
    | zero =>
      exfalso
      unfold chunkFuel at hm
      omega
    | succ j =>
      by_cases hgate : ctx.connOpen = false ∨ ctx.status ≠ ConnectionStatus.Uploading
      · rw [sendFileChunksI, if_pos hgate, sendFileChunksI, if_pos hgate]
      · by_cases hfin : chunkFinal file o = true
        · rw [sendFileChunksI, if_neg hgate, sendFileChunksI, if_neg hgate,
            sendChunkStep_final _ hfin]
        · have hlt : o + CHUNK_SIZE < (file.size : Int) := by
            have := (chunkFinal_true_iff file o).not.1 (by simp [hfin])
            omega
          have hend : chunkEnd file o = o + CHUNK_SIZE :=
            chunkEnd_of_not_final (by omega)
          rw [sendFileChunksI, if_neg hgate, sendFileChunksI, if_neg hgate,
            sendChunkStep_not_final _ (by simpa using hfin)]
          dsimp only
          simp only [List.tail_nil, applyInterference_nil]
          have hbound : chunkFuel file (chunkEnd file o) ≤ k ∧
              chunkFuel file (chunkEnd file o) ≤ j := by
            unfold chunkFuel at hn hm ⊢
            rw [hend]
            have := CHUNK_SIZE_pos
            constructor <;> omega
          rw [ih j (chunkProgressCtx file ctx o) (chunkEnd file o)
            hbound.1 hbound.2]

/-- Witness for C2 (amended): a Pause message on a fresh context, a final
chunk on the two-file receiver, and the first loop step on the 3-byte file
at offset 0. -/
theorem upload_progress_invariants_amended_witness :
    (initialContext uReplay).fileIndex ≤ (initialContext uReplay).totalFiles ∧
    (initialContext uReplay).fileIndex ≤
      (handleData uReplay (initialContext uReplay) Message.Pause).1.fileIndex ∧
    dTwo.currentFileIndex ≤ (handleChunk dTwo "a" [6] true).1.currentFileIndex ∧
    ((0 : Int) ≤ 0 ∧ (0 : Int) ≤ (fA3.size : Int) ∧ 0 < fA3.size ∧
      ctxUp.bytesTransferred + ((fA3.size : Int) - 0) ≤ ctxUp.totalBytes) ∧
    (sendChunkStep fA3 ctxUp 0).1.bytesTransferred ≤
      (sendChunkStep fA3 ctxUp 0).1.totalBytes := by
  have h := upload_progress_invariants_amended
  refine ⟨by decide, (h.1 uReplay (initialContext uReplay) Message.Pause
    (by decide)).1, h.2.1 dTwo "a" [6] true,
    ⟨by decide, by decide, by decide, by decide⟩, ?_⟩
  exact (h.2.2 fA3 ctxUp 0 (by decide) (by decide) (by decide) (by decide)).2.1
